import Mathlib

/-!
Shallow embedding of the nl2sql-assistant core (safety gate, history buffer,
schema introspection, session orchestration, slugify) and proofs about the
frozen claims.  Python strings are modelled over `List Char` (ASCII
idealization); machine behaviour such as `str.strip`, slicing `[:-1]`,
`re.sub`, and the word-boundary regex is translated operation by operation.
-/

namespace NL2SQL

/-! ## Python string primitives -/

/-- Characters removed by Python `str.strip()` (ASCII whitespace). -/
def isPySpace (c : Char) : Bool :=
  c == ' ' || c == '\t' || c == '\n' || c == '\r' || c == '\x0b' || c == '\x0c'

/-- Drop elements satisfying `p` from the right end of a list. -/
def dropRightWhile (p : Char → Bool) (l : List Char) : List Char :=
  ((l.reverse).dropWhile p).reverse

/-- Python `str.strip()` on a character list. -/
def stripList (l : List Char) : List Char :=
  dropRightWhile isPySpace (l.dropWhile isPySpace)

/-- Python `str.strip()`. -/
def pyStrip (s : String) : String := String.mk (stripList s.data)

/-- Python `str.lower()` (ASCII). -/
def pyLower (s : String) : String := String.mk (s.data.map Char.toLower)

/-- Python `str.upper()` (ASCII). -/
def pyUpper (s : String) : String := String.mk (s.data.map Char.toUpper)

/-! ## Safety gate (`WRITE_REGEX` / `is_safe_select`, src/NL2SQL.py lines 59-69) -/

/-- Word characters for the regex `\b` boundary (`[A-Za-z0-9_]`). -/
def isWordChar (c : Char) : Bool := c.isAlphanum || c == '_'

/-- The alternatives of `WRITE_REGEX`, upper-cased. -/
def FORBIDDEN : List (List Char) :=
  ["INSERT".data, "UPDATE".data, "DELETE".data, "ALTER".data, "DROP".data,
   "TRUNCATE".data, "CREATE".data, "REPLACE".data, "ATTACH".data,
   "DETACH".data, "PRAGMA".data]

/-- Case-insensitive match of keyword `kw` (upper-case letters) at the head of
`s`, followed by a word boundary (end of string or a non-word character). -/
def wwMatchAt (kw s : List Char) : Bool :=
  kw.isPrefixOf ((s.take kw.length).map Char.toUpper) &&
    (match s.drop kw.length with
     | [] => true
     | c :: _ => !isWordChar c)

/-- Scan `s` for a whole-word occurrence of `kw`; `prevIsWord` records whether
the character just before the current position is a word character (so that
the `\b` boundary on the left is honoured). -/
def wwSearchAux (kw : List Char) (prevIsWord : Bool) (s : List Char) : Bool :=
  match s with
  | [] => false
  | c :: rest =>
      ((!prevIsWord) && wwMatchAt kw (c :: rest)) ||
        wwSearchAux kw (isWordChar c) rest

/-- `WRITE_REGEX.search(sql)`: some forbidden keyword occurs as a whole word,
case-insensitively, anywhere in the text. -/
def writeRegexSearch (s : String) : Bool :=
  FORBIDDEN.any (fun kw => wwSearchAux kw false s.data)

/-- `is_safe_select` (src/NL2SQL.py lines 64-69):
semicolon rule on `sql.strip()[:-1]`, then `WRITE_REGEX.search`, then
`sql.strip().upper().startswith("SELECT")`. -/
def is_safe_select (sql : String) : Bool :=
  if (stripList sql.data).dropLast.contains ';' then false
  else if writeRegexSearch sql then false
  else "SELECT".data.isPrefixOf ((stripList sql.data).map Char.toUpper)

example : is_safe_select "select * from track" = true := by decide

example : is_safe_select "SELECT * FROM Track; DROP TABLE Track;" = false := by decide

example : is_safe_select "SELECTED 1" = true := by decide

example : writeRegexSearch "SELECT c FROM t WHERE x = \"drop\"" = true := by decide

example : is_safe_select "" = false := by decide

/-! ## History buffer (`build_history_context`, src/NL2SQL.py lines 71-87) -/

/-- A SQLite value carried in a preview row (ASCII/ integer idealization of the
values `json.dumps` can meet here). -/
inductive Value where
  | int (i : Int)
  | text (s : String)
  | null
deriving DecidableEq

/-- A result row, as fetched by `cursor.fetchall()`. -/
abbrev Row := List Value

/-- One history entry: the dict `{"q": ..., "sql": ..., "preview": [...]}`
appended by `main` / the web handler. -/
structure Turn where
  q : String
  sql : String
  preview : List Row
deriving DecidableEq

/-- `MAX_HISTORY_TURNS` (src/NL2SQL.py line 14). -/
def MAX_HISTORY_TURNS : Nat := 15

/-- Python slice `l[-m:]` (note `l[-0:]` is the whole list). -/
def pySliceLast (m : Nat) (l : List Turn) : List Turn :=
  if m == 0 then l else l.drop (l.length - m)

/-- `json.dumps` of one value. -/
def renderValue : Value → String
  | .int i => toString i
  | .text s => "\x22" ++ s ++ "\x22"
  | .null => "null"

/-- `json.dumps` of one row tuple (rendered as a JSON array). -/
def renderRow (r : Row) : String :=
  "[" ++ String.intercalate ", " (r.map renderValue) ++ "]"

/-- `json.dumps` of a list of preview rows. -/
def jsonRows (rows : List Row) : String :=
  "[" ++ String.intercalate ", " (rows.map renderRow) ++ "]"

/-- The f-string
`f"Turn {i}:\nQ: {q}\nSQL: {sql}\nPreviewRows: {preview_json}\n"`. -/
def turnChunk (i : Nat) (q sql : String) (preview : List Row) : String :=
  "Turn " ++ toString i ++ ":\n" ++ "Q: " ++ q ++ "\n" ++
    "SQL: " ++ sql ++ "\n" ++ "PreviewRows: " ++ jsonRows preview ++ "\n"

/-- `enumerate(l, 1)`. -/
def enumFrom1 {α : Type} (l : List α) : List (Nat × α) :=
  (List.range' 1 l.length).zip l

/-- The `chunks` list built by `build_history_context`: one rendered chunk per
turn of `history[-m:]`, numbered from 1, previews cut to `[:3]`. -/
def historyChunks (m : Nat) (h : List Turn) : List String :=
  (enumFrom1 (pySliceLast m h)).map
    (fun p => turnChunk p.1 p.2.q p.2.sql (p.2.preview.take 3))

/-- `build_history_context(history)` (src/NL2SQL.py lines 71-87). -/
def build_history_context (h : List Turn) : String :=
  if h.isEmpty then "" else
    String.intercalate "\n" (historyChunks MAX_HISTORY_TURNS h)

/-- The chunk list underlying the web app's context
`build_history_context(st.session_state.history[-max_hist:] if max_hist
else [])` (src/app.py line 73). -/
def app_historyChunks (maxHist : Nat) (h : List Turn) : List String :=
  historyChunks MAX_HISTORY_TURNS (if maxHist == 0 then [] else pySliceLast maxHist h)

/-- The web app's rendered history context (src/app.py line 73). -/
def app_hist_ctx (maxHist : Nat) (h : List Turn) : String :=
  build_history_context (if maxHist == 0 then [] else pySliceLast maxHist h)

/-- The last `n` entries of a list (`lastN 0 _ = []`); the reference notion of
"the last `n` turns" used to state the history claims. -/
def lastN (n : Nat) (l : List Turn) : List Turn := l.drop (l.length - n)

/-! ## Schema introspection (`get_schema`, src/NL2SQL.py lines 29-37) -/

/-- One row of `PRAGMA table_info(t)`; the code reads `c[1]` (name) and
`c[2]` (declared type). -/
structure TableInfoRow where
  cid : Nat
  name : String
  declType : String
deriving DecidableEq

/-- A column descriptor `{"name": c[1], "type": c[2]}`. -/
structure Column where
  name : String
  declType : String
deriving DecidableEq

/-- An abstract SQLite connection: the `sqlite_master` catalog as
(name, type) rows, and `PRAGMA table_info` per table name. -/
structure DBConn where
  master : List (String × String)
  tableInfo : String → List TableInfoRow

/-- Byte-wise (BINARY collation) string order, modelled on the character
lists. -/
def strDataLe (a b : String) : Prop := a.data ≤ b.data

instance : IsTotal String strDataLe :=
  ⟨fun a b => IsTotal.total a.data b.data⟩

instance : IsTrans String strDataLe :=
  ⟨fun _ _ _ h₁ h₂ => le_trans h₁ h₂⟩

instance (a b : String) : Decidable (strDataLe a b) := by
  unfold strDataLe
  infer_instance

/-- `SELECT name FROM sqlite_master WHERE type='table' ORDER BY name;`
modelled as filter + sort (SQLite orders text ascending, BINARY
collation). -/
def masterTableNames (conn : DBConn) : List String :=
  List.insertionSort strDataLe
    ((conn.master.filter (fun r => r.2 == "table")).map (fun r => r.1))

/-- `get_schema(conn)` (src/NL2SQL.py lines 29-37): an insertion-ordered dict
from table name to its column descriptors, in `table_info` order. -/
def get_schema (conn : DBConn) : List (String × List Column) :=
  (masterTableNames conn).map
    (fun t => (t, (conn.tableInfo t).map (fun c => ⟨c.name, c.declType⟩)))

/-- SQLite internal/system tables are exactly those whose name begins with
`sqlite_` (claim-side notion of "internal/system table"). -/
def isSystemTable (n : String) : Bool := "sqlite_".data.isPrefixOf n.data

/-! ## Session orchestration

One iteration of the console loop body (src/NL2SQL.py lines 170-241) and one
web form submit (src/app.py lines 66-122).  The remote calls and the database
are abstracted as `Except` parameters: `.error` means the call raised.  An
exception from `llm_sql` or `run_query` is *uncaught* in the console `main`,
so it escapes the `while` loop and ends the session; this is recorded as a
`genCrash` / `execCrash` outcome.  The `explain_results` and export calls sit
inside `try/except` in the source and cannot escape. -/

/-- What one console loop iteration did. `genCrash`/`execCrash` model an
uncaught exception propagating out of `main` (session over). -/
inductive StepOutcome where
  | exited
  | printedHistory
  | clearedHistory
  | printedSchema
  | emptyQuestion
  | genCrash (msg : String)
  | blocked
  | canceled
  | execCrash (msg : String)
  | completed (cols : List String) (rows : List Row) (expl : String)
deriving DecidableEq

/-- After this outcome the console loop reaches its next `input()` prompt
(an uncaught exception or an explicit `break` does not). -/
def canContinue : StepOutcome → Bool
  | .exited => false
  | .genCrash _ => false
  | .execCrash _ => false
  | _ => true

/-- `explain_results` (src/NL2SQL.py lines 108-121) with the generation call
abstracted: if the client is absent it returns `""` without calling out;
otherwise it returns whatever the service call did (`.error` = raised). -/
def explain_results_model (clientPresent : Bool) (svc : Except Unit String) :
    Except Unit String :=
  if !clientPresent then .ok "" else svc

/-- One iteration of the console loop body (src/NL2SQL.py lines 170-241).
Returns the new history and the outcome. -/
def consoleStep (h : List Turn) (question : String)
    (llmRes : Except String String) (confirm : String)
    (execRes : Except String (List String × List Row))
    (explRes : Except Unit String) : List Turn × StepOutcome :=
  let q := pyStrip question
  let low := pyLower q
  if low == "exit" || low == "quit" || low == "q" then (h, .exited)
  else if low == ":history" then (h, .printedHistory)
  else if low == ":clear" then ([], .clearedHistory)
  else if low == ":schema" then (h, .printedSchema)
  else if q == "" then (h, .emptyQuestion)
  else
    match llmRes with
    | .error e => (h, .genCrash e)
    | .ok sql =>
      if !is_safe_select sql then (h, .blocked)
      else
        let ok := pyLower (pyStrip confirm)
        if ok != "" && ok != "y" then (h, .canceled)
        else
          match execRes with
          | .error e => (h, .execCrash e)
          | .ok (cols, rows) =>
            let expl := match explRes with | .ok s => s | .error _ => ""
            let preview := rows.take 3
            (h ++ [⟨q, sql, preview⟩], .completed cols rows expl)

/-- Guard: the question is a real question, not a control command or blank
(the five command checks at the top of the loop body all fail). -/
def commandFree (question : String) : Bool :=
  let q := pyStrip question
  let low := pyLower q
  !(low == "exit" || low == "quit" || low == "q") &&
    !(low == ":history") && !(low == ":clear") && !(low == ":schema") &&
    !(q == "")

/-- What one web form submit did (src/app.py lines 66-122).  Every branch
returns to the Streamlit event loop, so the web session always survives. -/
inductive WebOutcome where
  | warnedEmpty
  | dbMissing
  | genFailed (msg : String)
  | noSql
  | blockedW
  | execFailed (msg : String)
  | completedW (cols : List String) (rows : List Row) (expl : String)
deriving DecidableEq

/-- One web submit (src/app.py lines 66-122).  `llm_sql` is wrapped in
`try/except` (failure shows an error and leaves `sql = ""`), `run_query` is
wrapped in `try/except` (failure shows the message and skips the result
branch), `explain_results` failures degrade to `""`.  The history append
stores the raw `question` (line 113) and `rows[:3]`.  The export step runs
after the append inside its own `try/except` and cannot change history. -/
def webStep (h : List Turn) (question : String) (dbOk : Bool)
    (llmRes : Except String String)
    (execRes : Except String (List String × List Row))
    (explRes : Except Unit String) : List Turn × WebOutcome :=
  if pyStrip question == "" then (h, .warnedEmpty)
  else if !dbOk then (h, .dbMissing)
  else
    match llmRes with
    | .error e => (h, .genFailed e)
    | .ok sql =>
      if sql == "" then (h, .noSql)
      else if !is_safe_select sql then (h, .blockedW)
      else
        match execRes with
        | .error e => (h, .execFailed e)
        | .ok (cols, rows) =>
          let expl := match explRes with | .ok s => s | .error _ => ""
          let preview := rows.take 3
          (h ++ [⟨question, sql, preview⟩], .completedW cols rows expl)

/-! ## Slugify (src/NL2SQL.py lines 152-154) -/

/-- Alphanumeric characters `[a-zA-Z0-9]` of the slug regex. -/
def isAlnumA (c : Char) : Bool := c.isAlphanum

/-- `re.sub(r"[^a-zA-Z0-9]+", "-", ·)`: each maximal run of non-alphanumeric
characters becomes a single `-`.  `inRun` records that the current position
is inside a non-alphanumeric run whose `-` was already emitted. -/
def collapseAux (inRun : Bool) : List Char → List Char
  | [] => []
  | c :: rest =>
      if isAlnumA c then c :: collapseAux false rest
      else if inRun then collapseAux true rest
      else '-' :: collapseAux true rest

/-- `re.sub(r"[^a-zA-Z0-9]+", "-", l)`. -/
def collapseRuns (l : List Char) : List Char := collapseAux false l

/-- Python `str.strip(ch)`: remove `ch` from both ends. -/
def pyStripChar (ch : Char) (l : List Char) : List Char :=
  dropRightWhile (fun c => c == ch) (l.dropWhile (fun c => c == ch))

/-- `slugify(text, maxlen)` (src/NL2SQL.py lines 152-154):
`s = re.sub(r"[^a-zA-Z0-9]+", "-", text.strip()).strip("-").lower()`
then `return (s[:maxlen] or "query").strip("-")`. -/
def slugify (text : String) (maxlen : Nat) : String :=
  let s := (pyStripChar '-' (collapseRuns (stripList text.data))).map Char.toLower
  let t := s.take maxlen
  let t := if t == [] then "query".data else t
  String.mk (pyStripChar '-' t)

example : slugify "Top 5 countries by revenue" 40 = "top-5-countries-by-revenue" := by decide
example : slugify "hello!" 40 = "hello" := by decide
example : slugify "???" 40 = "query" := by decide

/-! ## Claim-side notions

These definitions follow the spec's words (not the source) and exist to be
compared against the embedded code. -/

/-- Spec side, C2: a semicolon occurs in the trimmed text strictly before the
final character position. -/
def semiBeforeLast (s : String) : Bool := (stripList s.data).dropLast.contains ';'

/-- Code side, C3: the trimmed upper-cased text starts with the six-character
prefix `SELECT` (what `sql.strip().upper().startswith("SELECT")` tests). -/
def upperStripStartsSelect (s : String) : Bool :=
  "SELECT".data.isPrefixOf ((stripList s.data).map Char.toUpper)

/-- Spec side, C3: the trimmed, case-normalized text begins with `SELECT` as a
whole first word (the prefix is followed by a word boundary). -/
def firstTokenIsSelect (s : String) : Bool :=
  let t := (stripList s.data).map Char.toUpper
  "SELECT".data.isPrefixOf t &&
    (match t.drop 6 with
     | [] => true
     | c :: _ => !isWordChar c)

/-- Spec side, C9: the question lowercased, with every maximal run of
non-alphanumeric characters collapsed to a single separator, truncated to 40
characters — nothing else. -/
def slugSpecC9 (text : String) : String :=
  String.mk (((collapseRuns text.data).map Char.toLower).take 40)

/-- Split into maximal alphanumeric runs.  The Bool records whether the list
starts with an alphanumeric character (so a preceding character knows
whether to extend the first run). -/
def wordsAux : List Char → Bool × List (List Char)
  | [] => (false, [])
  | c :: rest =>
      if isAlnumA c then
        match wordsAux rest with
        | (true, w :: ws) => (true, (c :: w) :: ws)
        | (true, []) => (true, [[c]])
        | (false, ws) => (true, [c] :: ws)
      else (false, (wordsAux rest).2)

/-- The maximal alphanumeric runs of a character list, in order. -/
def alnumWords (l : List Char) : List (List Char) := (wordsAux l).2

/-- Join words with single hyphens. -/
def joinDash : List (List Char) → List Char
  | [] => []
  | [w] => w
  | w :: ws => w ++ '-' :: joinDash ws

/-- The hyphen predicate of `strip("-")`. -/
def dashP : Char → Bool := fun c => c == '-'

/-- Claim side, C9 amended: the maximal alphanumeric runs of the question,
joined by single hyphens, lowercased, truncated to 40 characters, with edge hyphens
stripped and the empty result replaced by `query`. -/
def slugAmended (text : String) : String :=
  let s := (joinDash (alnumWords text.data)).map Char.toLower
  let t := s.take 40
  String.mk (pyStripChar '-' (if t == [] then "query".data else t))

/-! ## Helper lemmas -/

theorem stripList_of_all_space {l : List Char} (h : l.all isPySpace = true) :
    stripList l = [] := by
  unfold stripList dropRightWhile
  have h1 : l.dropWhile isPySpace = [] := by
    rw [List.dropWhile_eq_nil_iff]
    intro x hx
    exact List.all_eq_true.mp h x hx
  rw [h1]
  rfl

/-- If the gate accepts, the trimmed upper-cased text starts with `SELECT`. -/
theorem safe_requires_select_start (s : String) (h : is_safe_select s = true) :
    upperStripStartsSelect s = true := by
  unfold is_safe_select at h
  unfold upperStripStartsSelect
  split at h
  · exact absurd h (by simp)
  · split at h
    · exact absurd h (by simp)
    · exact h

theorem joinDash_cons (w : List Char) (ws : List (List Char)) :
    joinDash (w :: ws) = w ++ (if ws = [] then [] else '-' :: joinDash ws) := by
  cases ws with
  | nil => simp [joinDash]
  | cons x xs => simp [joinDash]

theorem dropWhile_append (p : Char → Bool) (A B : List Char) :
    (A ++ B).dropWhile p =
      if A.dropWhile p = [] then B.dropWhile p else A.dropWhile p ++ B := by
  induction A with
  | nil => simp
  | cons a A ih =>
      by_cases ha : p a = true
      · simpa [List.dropWhile_cons, ha] using ih
      · simp [List.dropWhile_cons, ha]

theorem dropRightWhile_cons (p : Char → Bool) (c : Char) (X : List Char) :
    dropRightWhile p (c :: X) =
      if dropRightWhile p X = [] then (if p c then [] else [c])
      else c :: dropRightWhile p X := by
  unfold dropRightWhile
  rw [List.reverse_cons, dropWhile_append]
  by_cases h : X.reverse.dropWhile p = []
  · rw [if_pos h, h]
    by_cases hc : p c = true <;> simp [List.dropWhile_cons, hc]
  · rw [if_neg h]
    have h2 : (X.reverse.dropWhile p).reverse ≠ [] := by simpa using h
    rw [if_neg h2]
    simp

theorem wordsAux_cons (c : Char) (rest : List Char) :
    wordsAux (c :: rest) =
      if isAlnumA c then
        match wordsAux rest with
        | (true, w :: ws) => (true, (c :: w) :: ws)
        | (true, []) => (true, [[c]])
        | (false, ws) => (true, [c] :: ws)
      else (false, (wordsAux rest).2) := rfl

theorem words_ne_nil (l : List Char) :
    ∀ w ∈ alnumWords l, w ≠ [] := by
  induction l with
  | nil => intro w hw; simp [alnumWords, wordsAux] at hw
  | cons c rest ih =>
      intro w hw
      rcases hrec : wordsAux rest with ⟨flag, ws⟩
      have hws : ∀ u ∈ ws, u ≠ [] := by
        intro u hu
        exact ih u (by unfold alnumWords; rw [hrec]; exact hu)
      unfold alnumWords at hw
      rw [wordsAux_cons, hrec] at hw
      by_cases hc : isAlnumA c = true
      · rw [if_pos hc] at hw
        cases flag with
        | true =>
            cases ws with
            | nil => simp at hw; subst hw; simp
            | cons x xs =>
                simp at hw
                rcases hw with hw | hw
                · subst hw; simp
                · exact hws w (by simp [hw])
        | false =>
            simp at hw
            rcases hw with hw | hw
            · subst hw; simp
            · exact hws w hw
      · rw [if_neg hc] at hw
        simp at hw
        exact hws w hw

theorem words_flag_ne_nil (l : List Char) :
    (wordsAux l).1 = true → alnumWords l ≠ [] := by
  cases l with
  | nil => intro h; simp [wordsAux] at h
  | cons c rest =>
      intro h
      unfold alnumWords
      rw [wordsAux_cons]
      rw [wordsAux_cons] at h
      rcases hrec : wordsAux rest with ⟨flag, ws⟩
      by_cases hc : isAlnumA c = true
      · rw [if_pos hc]
        cases flag <;> cases ws <;> simp
      · rw [if_neg hc] at h
        simp at h

theorem joinDash_ne_nil {ws : List (List Char)} (hne : ws ≠ [])
    (hw : ∀ w ∈ ws, w ≠ []) : joinDash ws ≠ [] := by
  cases ws with
  | nil => exact absurd rfl hne
  | cons w xs =>
      cases xs with
      | nil => simpa [joinDash] using hw w (by simp)
      | cons y ys => simp [joinDash]

theorem alnum_ne_dash {c : Char} (hc : isAlnumA c = true) : (c == '-') = false := by
  by_contra h
  have hcd : c = '-' := eq_of_beq (by simpa using h)
  subst hcd
  simp [isAlnumA] at hc


theorem collapse_dropRight (l : List Char) :
    dropRightWhile dashP (collapseAux true l) = joinDash (alnumWords l) ∧
      dropRightWhile dashP (collapseAux false l) =
        (if (wordsAux l).1 = false ∧ alnumWords l ≠ [] then ['-'] else []) ++
          joinDash (alnumWords l) := by
  induction l with
  | nil =>
      constructor <;>
        simp [collapseAux, dropRightWhile, wordsAux, alnumWords, joinDash]
  | cons c rest ih =>
      obtain ⟨ih1, ih2⟩ := ih
      rcases hrec : wordsAux rest with ⟨flag, ws⟩
      have hwr : alnumWords rest = ws := by unfold alnumWords; rw [hrec]
      rw [hwr] at ih1 ih2
      rw [hrec] at ih2
      have hwnn : ∀ w ∈ ws, w ≠ [] := by rw [← hwr]; exact words_ne_nil rest
      by_cases hc : isAlnumA c = true
      · have hstept : collapseAux true (c :: rest) = c :: collapseAux false rest := by
          simp [collapseAux, hc]
        have hstepf : collapseAux false (c :: rest) = c :: collapseAux false rest := by
          simp [collapseAux, hc]
        have hflag : (wordsAux (c :: rest)).1 = true := by
          rw [wordsAux_cons, hrec, if_pos hc]
          cases flag <;> cases ws <;> simp
        have key : dropRightWhile dashP (c :: collapseAux false rest) =
            joinDash (alnumWords (c :: rest)) := by
          rw [dropRightWhile_cons]
          have hdc : dashP c = false := alnum_ne_dash hc
          cases flag with
          | true =>
              have hws : ws ≠ [] := by
                rw [← hwr]
                exact words_flag_ne_nil rest (by rw [hrec])
              obtain ⟨w, ws', rfl⟩ : ∃ w ws', ws = w :: ws' := by
                cases ws with
                | nil => exact absurd rfl hws
                | cons w ws' => exact ⟨w, ws', rfl⟩
              have hwc : alnumWords (c :: rest) = (c :: w) :: ws' := by
                unfold alnumWords
                rw [wordsAux_cons, hrec, if_pos hc]
              have hD : dropRightWhile dashP (collapseAux false rest) =
                  joinDash (w :: ws') := by
                simpa using ih2
              have hDne : joinDash (w :: ws') ≠ [] :=
                joinDash_ne_nil (by simp) hwnn
              rw [hD, if_neg hDne, hwc, joinDash_cons, joinDash_cons]
              cases ws' with
              | nil => simp
              | cons y ys => simp
          | false =>
              have hwc : alnumWords (c :: rest) = [c] :: ws := by
                unfold alnumWords
                rw [wordsAux_cons, hrec, if_pos hc]
              rw [hwc]
              cases ws with
              | nil =>
                  have hD : dropRightWhile dashP (collapseAux false rest) = [] := by
                    simpa [joinDash] using ih2
                  rw [hD, if_pos rfl, hdc]
                  simp [joinDash]
              | cons w ws' =>
                  have hD : dropRightWhile dashP (collapseAux false rest) =
                      '-' :: joinDash (w :: ws') := by
                    simpa using ih2
                  rw [hD]
                  rw [if_neg (by simp)]
                  simp [joinDash_cons]
        constructor
        · rw [hstept]
          exact key
        · rw [hstepf, hflag]
          simp only [Bool.true_eq_false, false_and, if_neg]
          simpa using key
      · have hstept : collapseAux true (c :: rest) = collapseAux true rest := by
          simp [collapseAux, hc]
        have hstepf : collapseAux false (c :: rest) = '-' :: collapseAux true rest := by
          simp [collapseAux, hc]
        have hwc : alnumWords (c :: rest) = ws := by
          unfold alnumWords
          rw [wordsAux_cons, hrec, if_neg hc]
        have hflag : (wordsAux (c :: rest)).1 = false := by
          rw [wordsAux_cons, hrec, if_neg hc]
        constructor
        · rw [hstept, hwc]
          exact ih1
        · rw [hstepf, hwc, hflag, dropRightWhile_cons, ih1]
          cases ws with
          | nil =>
              simp [joinDash, dashP]
          | cons w ws' =>
              have hne : joinDash (w :: ws') ≠ [] := joinDash_ne_nil (by simp) hwnn
              rw [if_neg hne]
              simp

theorem wordsAux_all_notAlnum {l : List Char}
    (h : ∀ c ∈ l, isAlnumA c = false) : wordsAux l = (false, []) := by
  induction l with
  | nil => rfl
  | cons c rest ih =>
      rw [wordsAux_cons, if_neg (by simp [h c (by simp)]),
        ih (fun d hd => h d (by simp [hd]))]

theorem dropRightWhile_eq_nil {p : Char → Bool} {l : List Char}
    (h : dropRightWhile p l = []) : ∀ c ∈ l, p c = true := by
  unfold dropRightWhile at h
  have h2 : l.reverse.dropWhile p = [] := by
    have := congrArg List.reverse h
    simpa using this
  intro c hc
  exact List.dropWhile_eq_nil_iff.mp h2 c (by simpa using hc)

theorem wordsAux_dropWhile {p : Char → Bool}
    (hp : ∀ c, p c = true → isAlnumA c = false) (l : List Char) :
    (wordsAux (l.dropWhile p)).2 = (wordsAux l).2 := by
  induction l with
  | nil => rfl
  | cons c rest ih =>
      by_cases hc : p c = true
      · rw [List.dropWhile_cons_of_pos hc, ih, wordsAux_cons,
          if_neg (by simp [hp c hc])]
      · rw [List.dropWhile_cons_of_neg (by simpa using hc)]

theorem wordsAux_dropRightWhile {p : Char → Bool}
    (hp : ∀ c, p c = true → isAlnumA c = false) (l : List Char) :
    wordsAux (dropRightWhile p l) = wordsAux l := by
  induction l with
  | nil => rfl
  | cons c rest ih =>
      rw [dropRightWhile_cons]
      by_cases hnil : dropRightWhile p rest = []
      · rw [if_pos hnil]
        have hall : ∀ d ∈ rest, p d = true := dropRightWhile_eq_nil hnil
        have hrestw : wordsAux rest = (false, []) :=
          wordsAux_all_notAlnum (fun d hd => hp d (hall d hd))
        by_cases hc : p c = true
        · rw [if_pos hc, wordsAux_cons, hrestw, if_neg (by simp [hp c hc])]
          rfl
        · rw [if_neg hc, wordsAux_cons, wordsAux_cons, hrestw]
          rfl
      · rw [if_neg hnil, wordsAux_cons, wordsAux_cons, ih]

theorem space_not_alnum {c : Char} (h : isPySpace c = true) :
    isAlnumA c = false := by
  simp [isPySpace] at h
  rcases h with ((((h | h) | h) | h) | h) | h <;> (subst h; decide)

theorem dropWhile_dash_collapse_true (l : List Char) :
    (collapseAux true l).dropWhile dashP = collapseAux true l := by
  induction l with
  | nil => rfl
  | cons c rest ih =>
      by_cases hc : isAlnumA c = true
      · simp [collapseAux, hc, List.dropWhile_cons, alnum_ne_dash hc, dashP]
      · simp [collapseAux, hc, ih]

theorem dropWhile_dash_collapse_false (l : List Char) :
    (collapseAux false l).dropWhile dashP = collapseAux true l := by
  cases l with
  | nil => rfl
  | cons c rest =>
      by_cases hc : isAlnumA c = true
      · simp [collapseAux, hc, List.dropWhile_cons, alnum_ne_dash hc, dashP]
      · simp [collapseAux, hc, List.dropWhile_cons, dashP,
          dropWhile_dash_collapse_true]

theorem slug_core (l : List Char) :
    pyStripChar '-' (collapseRuns (stripList l)) = joinDash (alnumWords l) := by
  unfold pyStripChar collapseRuns
  rw [show (fun c => c == '-') = dashP from rfl]
  rw [dropWhile_dash_collapse_false]
  rw [(collapse_dropRight (stripList l)).1]
  congr 1
  unfold stripList alnumWords
  rw [wordsAux_dropRightWhile (fun c hc => space_not_alnum hc)]
  rw [wordsAux_dropWhile (fun c hc => space_not_alnum hc)]

/-! ## Claims -/

/-- C1: every candidate containing one of the forbidden keywords as a whole
word, in any letter case, anywhere in the text (string literals included) is
rejected by `is_safe_select`. -/
theorem c1_forbidden_keyword_rejected (s : String)
    (h : writeRegexSearch s = true) : is_safe_select s = false := by
  unfold is_safe_select
  rw [h]
  split
  · rfl
  · simp

/-- Witness for C1 at a candidate whose forbidden keyword sits inside what
looks like a string literal. -/
theorem c1_witness :
    writeRegexSearch "SELECT c FROM t WHERE x = \"drop\"" = true ∧
      is_safe_select "SELECT c FROM t WHERE x = \"drop\"" = false :=
  ⟨by decide, c1_forbidden_keyword_rejected _ (by decide)⟩

/-- C2: a semicolon strictly before the final character of the trimmed text
forces rejection; a candidate with no such semicolon that is otherwise clean
(no forbidden keyword, starts with `SELECT`) is accepted, so a single
trailing semicolon is tolerated; and the chained statement
`SELECT * FROM Track; DROP TABLE Track;` is rejected. -/
theorem c2_single_statement_rule :
    (∀ s : String, semiBeforeLast s = true → is_safe_select s = false) ∧
      (∀ s : String, semiBeforeLast s = false → writeRegexSearch s = false →
        upperStripStartsSelect s = true → is_safe_select s = true) ∧
      is_safe_select "SELECT * FROM Track; DROP TABLE Track;" = false := by
  refine ⟨?_, ?_, by decide⟩
  · intro s h
    unfold is_safe_select
    unfold semiBeforeLast at h
    rw [h]
    simp
  · intro s h1 h2 h3
    unfold is_safe_select
    unfold semiBeforeLast at h1
    unfold upperStripStartsSelect at h3
    rw [h1, h2]
    simpa using h3

/-- Witness for C2: one semicolon-chained candidate rejected, one candidate
with a single trailing semicolon accepted. -/
theorem c2_witness :
    is_safe_select "SELECT 1; SELECT 2" = false ∧
      is_safe_select "SELECT * FROM Track;" = true :=
  ⟨c2_single_statement_rule.1 _ (by decide),
   c2_single_statement_rule.2.1 _ (by decide) (by decide) (by decide)⟩

/-- C3 counterexample: `SELECTED 1` does not begin with `SELECT` as a whole
first word, yet `is_safe_select` accepts it — the code checks only the
six-character prefix, so the claim as stated is false. -/
theorem c3_counterexample :
    firstTokenIsSelect "SELECTED 1" = false ∧
      is_safe_select "SELECTED 1" = true := by
  decide

/-- C3 amended: `is_safe_select` returns true only if the trimmed upper-cased
candidate starts with the six-character prefix `SELECT` (not necessarily as a
whole word); every candidate failing that prefix check is rejected; and the
lowercase clean candidate `select * from track` is accepted. -/
theorem c3_amended_prefix_start (s : String) :
    (is_safe_select s = true → upperStripStartsSelect s = true) ∧
      (upperStripStartsSelect s = false → is_safe_select s = false) ∧
      is_safe_select "select * from track" = true := by
  refine ⟨safe_requires_select_start s, ?_, by decide⟩
  intro h
  cases hs : is_safe_select s with
  | false => rfl
  | true => rw [safe_requires_select_start s hs] at h; cases h

/-- Witness for C3: the amended theorem applied at rejected and accepted
concrete candidates. -/
theorem c3_witness :
    upperStripStartsSelect "SELECT * FROM Album" = true ∧
      is_safe_select "show tables" = false :=
  ⟨(c3_amended_prefix_start "SELECT * FROM Album").1 (by decide),
   (c3_amended_prefix_start "show tables").2.1 (by decide)⟩

/-- C10: `is_safe_select` is total and returns false on the empty string and
on every whitespace-only string (the `[:-1]` slice of the empty trimmed text
is well-defined and empty, and the `SELECT`-prefix check fails). -/
theorem c10_empty_and_whitespace_rejected :
    is_safe_select "" = false ∧
      ∀ s : String, s.data.all isPySpace = true → is_safe_select s = false := by
  refine ⟨by decide, ?_⟩
  intro s h
  have hs : stripList s.data = [] := stripList_of_all_space h
  unfold is_safe_select
  rw [hs]
  cases hw : writeRegexSearch s <;> simp

/-- Witness for C10 at a whitespace-only string. -/
theorem c10_witness : is_safe_select "  \n\t " = false :=
  c10_empty_and_whitespace_rejected.2 "  \n\t " (by decide)

/-- A sample prior turn used in concrete inputs. -/
def exTurn : Turn := ⟨"prior question", "SELECT 1", [[Value.int 1]]⟩

/-- A sample connection whose catalog carries a user table and the internal
`sqlite_sequence` table (present in any SQLite database using
`AUTOINCREMENT`), both listed by `sqlite_master` with type `table`. -/
def conn0 : DBConn :=
  ⟨[("Album", "table"), ("sqlite_sequence", "table")],
   fun t =>
     if t == "Album" then
       [⟨0, "AlbumId", "INTEGER"⟩, ⟨1, "Title", "NVARCHAR(160)"⟩]
     else if t == "sqlite_sequence" then
       [⟨0, "name", ""⟩, ⟨1, "seq", ""⟩]
     else []⟩

theorem map_fst_map_pair {A B : Type} (g : A → B) (l : List A) :
    (l.map (fun t => (t, g t))).map Prod.fst = l := by
  induction l with
  | nil => rfl
  | cons a l ih => simp [ih]

/-- C7 counterexample: `get_schema` filters `sqlite_master` only by
`type='table'`, with no `NOT LIKE 'sqlite_%'` clause, so the internal
`sqlite_sequence` table lands in the returned schema — the claim's "includes
no internal/system tables" fails on any database carrying one. -/
theorem c7_counterexample :
    isSystemTable "sqlite_sequence" = true ∧
      "sqlite_sequence" ∈ (get_schema conn0).map Prod.fst := by
  constructor
  · decide
  · decide

/-- C7 amended: `get_schema` covers every row of the catalog with type
`table` — internal tables such as `sqlite_sequence` included — ordered
ascending by table name, each with its columns exactly as reported by
`table_info` and in that physical order. -/
theorem c7_amended_schema_shape (conn : DBConn) :
    List.Sorted strDataLe ((get_schema conn).map Prod.fst) ∧
      (∀ n : String, (n, "table") ∈ conn.master →
        n ∈ (get_schema conn).map Prod.fst) ∧
      (∀ p : String × List Column, p ∈ get_schema conn →
        p.2 = (conn.tableInfo p.1).map (fun c => ⟨c.name, c.declType⟩) ∧
          (p.1, "table") ∈ conn.master) := by
  refine ⟨?_, ?_, ?_⟩
  · have hfst : (get_schema conn).map Prod.fst = masterTableNames conn := by
      unfold get_schema
      exact map_fst_map_pair _ _
    rw [hfst]
    exact List.sorted_insertionSort _ _
  · intro n hn
    have hfst : (get_schema conn).map Prod.fst = masterTableNames conn := by
      unfold get_schema
      exact map_fst_map_pair _ _
    rw [hfst]
    unfold masterTableNames
    rw [(List.perm_insertionSort _ _).mem_iff]
    rw [List.mem_map]
    exact ⟨(n, "table"), List.mem_filter.mpr ⟨hn, by simp⟩, rfl⟩
  · intro p hp
    unfold get_schema at hp
    rw [List.mem_map] at hp
    obtain ⟨t, ht, rfl⟩ := hp
    refine ⟨rfl, ?_⟩
    unfold masterTableNames at ht
    rw [(List.perm_insertionSort _ _).mem_iff, List.mem_map] at ht
    obtain ⟨r, hr, rfl⟩ := ht
    have hmem := List.mem_filter.mp hr
    have h2 : r.2 = "table" := by simpa using hmem.2
    have h1 : (r.1, r.2) ∈ conn.master := by simpa using hmem.1
    rw [h2] at h1
    exact h1

/-- Witness for C7: the amended theorem instantiated on the sample
connection. -/
theorem c7_witness :
    "Album" ∈ (get_schema conn0).map Prod.fst ∧
      (("Album", [(⟨"AlbumId", "INTEGER"⟩ : Column), ⟨"Title", "NVARCHAR(160)"⟩]) :
          String × List Column).2 =
        (conn0.tableInfo "Album").map (fun c => ⟨c.name, c.declType⟩) :=
  ⟨(c7_amended_schema_shape conn0).2.1 "Album" (by decide),
   ((c7_amended_schema_shape conn0).2.2
      ("Album", [⟨"AlbumId", "INTEGER"⟩, ⟨"Title", "NVARCHAR(160)"⟩])
      (by decide)).1⟩

/-- C4 counterexample: in the console loop (`main`, src/NL2SQL.py line 215)
`run_query` is not wrapped in `try/except`, so a database error on an
approved SELECT propagates out of the loop and ends the session — the user
cannot submit another question, contrary to the claim.  (The history buffer
is indeed left unmutated.) -/
theorem c4_counterexample :
    consoleStep [exTurn] "list all tracks" (.ok "SELECT * FROM Nope") ""
        (.error "no such table: Nope") (.ok "") =
      ([exTurn], .execCrash "no such table: Nope") ∧
      canContinue (.execCrash "no such table: Nope") = false := by
  constructor
  · decide
  · rfl

/-- C4 amended: a database error on an approved SQL string never mutates the
history buffer in either front end; in the web variant it is surfaced as a
per-turn query error and the session survives, while in the console variant
the exception is uncaught and terminates the session. -/
theorem c4_amended_error_isolation :
    (∀ (h : List Turn) (question sql confirm e : String)
        (explRes : Except Unit String),
      commandFree question = true →
      is_safe_select sql = true →
      (pyLower (pyStrip confirm) = "" ∨ pyLower (pyStrip confirm) = "y") →
      consoleStep h question (.ok sql) confirm (.error e) explRes =
        (h, .execCrash e)) ∧
      (∀ e : String, canContinue (.execCrash e) = false) ∧
      (∀ (h : List Turn) (question sql e : String)
          (explRes : Except Unit String),
        pyStrip question ≠ "" →
        sql ≠ "" →
        is_safe_select sql = true →
        webStep h question true (.ok sql) (.error e) explRes =
          (h, .execFailed e)) := by
  refine ⟨?_, fun e => rfl, ?_⟩
  · intro h question sql confirm e explRes hq hsafe hc
    simp only [commandFree, Bool.and_eq_true, Bool.not_eq_true'] at hq
    obtain ⟨⟨⟨⟨h1, h2⟩, h3⟩, h4⟩, h5⟩ := hq
    rcases hc with hc | hc <;>
      simp [consoleStep, h1, h2, h3, h4, h5, hsafe, hc]
  · intro h question sql e explRes hq hsql hsafe
    simp [webStep, hq, hsql, hsafe]

/-- Witness for C4: the amended theorem at concrete turns of both front
ends. -/
theorem c4_witness :
    consoleStep [] "how many albums" (.ok "SELECT COUNT(AlbumId) FROM Album")
        "" (.error "boom") (.ok "") = ([], .execCrash "boom") ∧
      webStep [] "how many albums" true (.ok "SELECT COUNT(AlbumId) FROM Album")
        (.error "boom") (.ok "") = ([], .execFailed "boom") :=
  ⟨c4_amended_error_isolation.1 [] "how many albums"
      "SELECT COUNT(AlbumId) FROM Album" "" "boom" (.ok "")
      (by decide) (by decide) (Or.inl (by decide)),
   c4_amended_error_isolation.2.2 [] "how many albums"
      "SELECT COUNT(AlbumId) FROM Album" "boom" (.ok "")
      (by decide) (by decide) (by decide)⟩

/-- C8: the explanation step is best-effort — with the generation client
absent `explain_results` returns the empty string without raising, and in
the console loop a raising explanation call is swallowed: the turn still
completes with an empty explanation, the result is surfaced, and the Turn is
appended to history. -/
theorem c8_explanation_failure_nonfatal :
    (∀ svc : Except Unit String, explain_results_model false svc = .ok "") ∧
      ∀ (h : List Turn) (question sql confirm : String)
        (cols : List String) (rows : List Row) (explRes : Except Unit String),
        commandFree question = true →
        is_safe_select sql = true →
        (pyLower (pyStrip confirm) = "" ∨ pyLower (pyStrip confirm) = "y") →
        (explRes = .error () ∨ explRes = .ok "") →
        consoleStep h question (.ok sql) confirm (.ok (cols, rows)) explRes =
          (h ++ [⟨pyStrip question, sql, rows.take 3⟩],
            .completed cols rows "") := by
  refine ⟨fun svc => rfl, ?_⟩
  intro h question sql confirm cols rows explRes hq hsafe hc he
  simp only [commandFree, Bool.and_eq_true, Bool.not_eq_true'] at hq
  obtain ⟨⟨⟨⟨h1, h2⟩, h3⟩, h4⟩, h5⟩ := hq
  rcases hc with hc | hc <;> rcases he with he | he <;>
    simp [consoleStep, h1, h2, h3, h4, h5, hsafe, hc, he]

/-- Composing two Python `[-m:]` slices keeps the last `min m₁ m₂`
elements. -/
theorem pySliceLast_comp (m₁ m₂ : Nat) (h : List Turn)
    (hm₁ : m₁ ≠ 0) (hm₂ : m₂ ≠ 0) :
    pySliceLast m₂ (pySliceLast m₁ h) = lastN (min m₁ m₂) h := by
  unfold pySliceLast lastN
  have hb₁ : (m₁ == 0) = false := by simp [hm₁]
  have hb₂ : (m₂ == 0) = false := by simp [hm₂]
  rw [hb₁, hb₂]
  simp only [Bool.false_eq_true, if_false]
  rw [List.length_drop, List.drop_drop]
  congr 1
  omega

/-- The turns that actually reach the web app's prompt context are the last
`min maxHist MAX_HISTORY_TURNS` ones. -/
theorem app_slice_eq (maxHist : Nat) (h : List Turn) :
    pySliceLast MAX_HISTORY_TURNS
        (if maxHist == 0 then [] else pySliceLast maxHist h) =
      lastN (min maxHist MAX_HISTORY_TURNS) h := by
  by_cases h0 : maxHist = 0
  · subst h0
    simp [pySliceLast, lastN, MAX_HISTORY_TURNS, List.drop_length]
  · have hb : (maxHist == 0) = false := by simp [h0]
    rw [hb]
    simp only [Bool.false_eq_true, if_false]
    exact pySliceLast_comp maxHist MAX_HISTORY_TURNS h h0 (by decide)

theorem enumFrom1_concat {α : Type} (xs : List α) (t : α) :
    enumFrom1 (xs ++ [t]) = enumFrom1 xs ++ [(xs.length + 1, t)] := by
  unfold enumFrom1
  rw [List.length_append]
  simp only [List.length_cons, List.length_nil, Nat.zero_add]
  rw [show List.range' 1 (xs.length + 1) = List.range' 1 xs.length ++ [1 + xs.length] by
    have := @List.range'_concat 1 1 xs.length
    simpa using this]
  rw [List.zip_append (by simp)]
  simp [Nat.add_comm]

theorem pySliceLast_concat (m : Nat) (hm : 1 ≤ m) (h : List Turn) (t : Turn) :
    pySliceLast m (h ++ [t]) = h.drop (h.length + 1 - m) ++ [t] := by
  unfold pySliceLast
  have hb : (m == 0) = false := by simp; omega
  rw [hb]
  simp only [Bool.false_eq_true, if_false]
  rw [List.length_append]
  simp only [List.length_cons, List.length_nil, Nat.zero_add]
  exact List.drop_append_of_le_length (by omega)

/-- C5 counterexample: with the web history-depth widget set to 16 (the
sidebar allows up to 50) and a buffer of 16 turns, the rendered context
carries only 15 chunks, not the claimed "exactly the last 16 turns" — the
inner `MAX_HISTORY_TURNS` cap in `build_history_context` cuts the slice
again. -/
theorem c5_counterexample :
    (app_historyChunks 16 (List.replicate 16 exTurn)).length = 15 ∧
      (lastN 16 (List.replicate 16 exTurn)).length = 16 ∧
      app_historyChunks 16 (List.replicate 16 exTurn) ≠
        (enumFrom1 (lastN 16 (List.replicate 16 exTurn))).map
          (fun p => turnChunk p.1 p.2.q p.2.sql (p.2.preview.take 3)) := by
  have l1 : (app_historyChunks 16 (List.replicate 16 exTurn)).length = 15 := by
    decide
  have l2 : ((enumFrom1 (lastN 16 (List.replicate 16 exTurn))).map
      (fun p => turnChunk p.1 p.2.q p.2.sql (p.2.preview.take 3))).length = 16 := by
    decide
  refine ⟨l1, by decide, fun heq => ?_⟩
  rw [heq, l2] at l1
  exact absurd l1 (by decide)

/-- C5 amended: the web context renders exactly the last
`min maxTurns MAX_HISTORY_TURNS` turns of the buffer (all of them when the
buffer is shorter), in insertion order and numbered from 1, and every
rendered turn carries at most 3 preview rows. -/
theorem c5_amended_context_bound (maxHist : Nat) (h : List Turn) :
    app_historyChunks maxHist h =
      (enumFrom1 (lastN (min maxHist MAX_HISTORY_TURNS) h)).map
        (fun p => turnChunk p.1 p.2.q p.2.sql (p.2.preview.take 3)) ∧
      (app_historyChunks maxHist h).length =
        min (min maxHist MAX_HISTORY_TURNS) h.length ∧
      ∀ t : Turn, (t.preview.take 3).length ≤ 3 := by
  refine ⟨?_, ?_, ?_⟩
  · unfold app_historyChunks historyChunks
    rw [app_slice_eq]
  · unfold app_historyChunks historyChunks enumFrom1
    rw [app_slice_eq]
    rw [List.length_map, List.length_zip, List.length_range']
    unfold lastN
    rw [List.length_drop]
    omega
  · intro t
    rw [List.length_take]
    exact min_le_left _ _

/-- C6: appending a turn with an (invariantly) at-most-3-row preview and
rendering with at least one context slot makes it the last, highest-numbered
chunk, with question, SQL and preview rendered exactly as appended. -/
theorem c6_append_roundtrip (m : Nat) (h : List Turn) (t : Turn)
    (hm : 1 ≤ m) (hp : t.preview.length ≤ 3) :
    (historyChunks m (h ++ [t])).getLast? =
      some (turnChunk (min m (h.length + 1)) t.q t.sql t.preview) := by
  unfold historyChunks
  rw [pySliceLast_concat m hm h t, enumFrom1_concat]
  rw [List.map_append]
  simp only [List.map_cons, List.map_nil]
  rw [List.getLast?_concat]
  have hidx : (h.drop (h.length + 1 - m)).length + 1 = min m (h.length + 1) := by
    rw [List.length_drop]
    omega
  rw [hidx]
  simp [List.take_of_length_le hp]

/-- Witness for C6 at a concrete one-turn append. -/
theorem c6_witness :
    (historyChunks MAX_HISTORY_TURNS ([] ++ [exTurn])).getLast? =
      some (turnChunk 1 "prior question" "SELECT 1" [[Value.int 1]]) := by
  have := c6_append_roundtrip MAX_HISTORY_TURNS [] exTurn (by decide) (by decide)
  simpa [exTurn] using this

/-- Witness for C8: a raising explanation call on a concrete successful
turn. -/
theorem c8_witness :
    consoleStep [] "count albums" (.ok "SELECT COUNT(AlbumId) FROM Album")
        "y" (.ok (["n"], [[Value.int 347]])) (.error ()) =
      ([⟨"count albums", "SELECT COUNT(AlbumId) FROM Album",
          [[Value.int 347]]⟩], .completed ["n"] [[Value.int 347]] "") := by
  have := c8_explanation_failure_nonfatal.2 [] "count albums"
    "SELECT COUNT(AlbumId) FROM Album" "y" ["n"] [[Value.int 347]] (.error ())
    (by decide) (by decide) (Or.inr (by decide)) (Or.inl rfl)
  simpa using this

/-- C9 counterexample: `slugify` also strips leading/trailing separators and
falls back to `query`, so the claimed formula (lowercase, collapse runs,
truncate) disagrees with it already on `hello!`, whose trailing
non-alphanumeric run the claim turns into a trailing hyphen. -/
theorem c9_counterexample :
    slugify "hello!" 40 = "hello" ∧ slugSpecC9 "hello!" = "hello-" ∧
      slugify "hello!" 40 ≠ slugSpecC9 "hello!" := by
  refine ⟨by decide, by decide, by decide⟩

/-- C9 amended: the slug equals the maximal alphanumeric runs of the question
joined by single hyphens, lowercased, truncated to 40 characters, with edge
hyphens stripped after truncation and the empty result replaced by the
literal `query`. -/
theorem c9_amended_slug (text : String) : slugify text 40 = slugAmended text := by
  unfold slugify slugAmended
  rw [slug_core]

end NL2SQL
